import Mathlib

/-!
Verification of the chat frontend of the rag-pinecone-chat repository.

The development shallowly embeds the TypeScript sources:
  * `src/frontend/src/lib/api.ts` (`streamMessage` SSE consumption),
  * `src/frontend/src/contexts/AuthContext.tsx` (anonymous quota state),
  * `src/hooks/useChat` (send-message flow, sources bookkeeping),
  * `src/frontend/src/hooks/useChatSessions.ts` (optimistic delete).

JavaScript strings are embedded as `List Char`; JSON values produced by
`JSON.parse` are embedded as the inductive `JSVal` together with an
executable parser `parseJson` for the JSON grammar (numbers are exact
rationals; the only divergences from a JS engine are surrogate `\u`
escapes, which no theorem below exercises).
-/

set_option maxRecDepth 4000

namespace RagChat

/-- Convert a Lean string literal to the `List Char` embedding of JS strings. -/
def chars (s : String) : List Char := s.data

/-! ### JSON values (runtime values produced by `JSON.parse`) -/

/-- A JSON value as produced by `JSON.parse`. Numbers are embedded as exact
rationals. -/
inductive JSVal where
  | null
  | bool (b : Bool)
  | num (q : ℚ)
  | str (s : List Char)
  | arr (elems : List JSVal)
  | obj (fields : List (List Char × JSVal))

/-- JS truthiness of a JSON value (`null`, `false`, `0` and `""` are falsy;
arrays and objects, including empty ones, are truthy). -/
def truthy : JSVal → Bool
  | .null => false
  | .bool b => b
  | .num q => decide (q ≠ 0)
  | .str s => !s.isEmpty
  | .arr _ => true
  | .obj _ => true

/-- Last binding of a key in an object field list: duplicate keys in a JSON
text resolve to the last occurrence, as in JS. -/
def lookupLast (fields : List (List Char × JSVal)) (k : List Char) : Option JSVal :=
  fields.foldl (fun acc f => if f.1 = k then some f.2 else acc) none

/-- Property access `v.k` on a parsed JSON value: a field lookup on objects,
`undefined` (`none`) on any non-object. (Access on `null` throws in JS; every
use below occurs inside a `try` whose `catch` skips, which coincides with the
`none` branch.) -/
def jsGet : JSVal → List Char → Option JSVal
  | .obj fields, k => lookupLast fields k
  | _, _ => none

/-- Truthiness of a possibly-absent value (`undefined` is falsy). -/
def truthyOpt : Option JSVal → Bool
  | none => false
  | some v => truthy v

/-! ### A JSON parser for `JSON.parse` -/

/-- JSON insignificant whitespace. -/
def isJsonWs (c : Char) : Bool :=
  c == ' ' || c == '\t' || c == '\n' || c == '\r'

/-- Skip insignificant whitespace. -/
def skipWs (s : List Char) : List Char := s.dropWhile isJsonWs

/-- Value of a hexadecimal digit. -/
def hexDigitVal (c : Char) : Option Nat :=
  if '0' ≤ c ∧ c ≤ '9' then some (c.toNat - 48)
  else if 'a' ≤ c ∧ c ≤ 'f' then some (c.toNat - 87)
  else if 'A' ≤ c ∧ c ≤ 'F' then some (c.toNat - 55)
  else none

/-- Decode a single-character JSON escape. -/
def escapeChar : Char → Option Char
  | '\"' => some '\"'
  | '\\' => some '\\'
  | '/' => some '/'
  | 'b' => some '\x08'
  | 'f' => some '\x0c'
  | 'n' => some '\n'
  | 'r' => some '\r'
  | 't' => some '\t'
  | _ => none

/-- Parse the body of a JSON string after the opening quote, returning the
decoded characters and the remaining input. -/
def parseStringBody : List Char → Option (List Char × List Char)
  | [] => none
  | '\"' :: rest => some ([], rest)
  | '\\' :: 'u' :: h1 :: h2 :: h3 :: h4 :: rest =>
    (match hexDigitVal h1, hexDigitVal h2, hexDigitVal h3, hexDigitVal h4 with
     | some a, some b, some c, some d =>
       let n := ((a * 16 + b) * 16 + c) * 16 + d
       if Nat.isValidChar n then
         match parseStringBody rest with
         | some (s, rest2) => some (Char.ofNat n :: s, rest2)
         | none => none
       else none
     | _, _, _, _ => none)
  | '\\' :: e :: rest =>
    (match escapeChar e with
     | some ec =>
       match parseStringBody rest with
       | some (s, rest2) => some (ec :: s, rest2)
       | none => none
     | none => none)
  | c :: rest =>
    if c.toNat < 32 then none
    else
      match parseStringBody rest with
      | some (s, rest2) => some (c :: s, rest2)
      | none => none

/-- Numeric value of a digit string. -/
def digitsToNat (ds : List Char) : Nat :=
  ds.foldl (fun n c => 10 * n + (c.toNat - 48)) 0

/-- Parse an optional JSON fraction part, returning its rational value
(`0` when absent). -/
def parseFrac : List Char → Option (ℚ × List Char)
  | '.' :: rest =>
    (match rest.span Char.isDigit with
     | ([], _) => none
     | (fs, s3) => some ((digitsToNat fs : ℚ) / ((10 : ℚ) ^ fs.length), s3))
  | s => some (0, s)

/-- Parse an optional JSON exponent part, returning its multiplier
(`1` when absent). -/
def parseExp : List Char → Option (ℚ × List Char)
  | [] => some (1, [])
  | c :: rest =>
    if c = 'e' ∨ c = 'E' then
      let p : Bool × List Char :=
        match rest with
        | '+' :: r => (false, r)
        | '-' :: r => (true, r)
        | r => (false, r)
      match p.2.span Char.isDigit with
      | ([], _) => none
      | (ds, s4) =>
        let e := digitsToNat ds
        some ((if p.1 then 1 / ((10 : ℚ) ^ e) else (10 : ℚ) ^ e), s4)
    else some (1, c :: rest)

/-- Parse a JSON number (rejecting leading zeros, as `JSON.parse` does). -/
def parseNumber (s : List Char) : Option (ℚ × List Char) :=
  let sg : Bool × List Char :=
    match s with
    | '-' :: rest => (true, rest)
    | _ => (false, s)
  match sg.2.span Char.isDigit with
  | ([], _) => none
  | (d :: drest, s2) =>
    if d = '0' ∧ drest ≠ [] then none
    else
      match parseFrac s2 with
      | none => none
      | some (f, s3) =>
        match parseExp s3 with
        | none => none
        | some (m, s4) =>
          let v : ℚ := ((digitsToNat (d :: drest) : ℚ) + f) * m
          some ((if sg.1 then -v else v), s4)

mutual

/-- Fueled recursive-descent parser for a JSON value. -/
def parseVal : Nat → List Char → Option (JSVal × List Char)
  | 0, _ => none
  | _, [] => none
  | fuel + 1, c :: rest =>
    if c = '\"' then
      match parseStringBody rest with
      | some (s, rest2) => some (.str s, rest2)
      | none => none
    else if c = 't' then
      if rest.take 3 = [ 'r', 'u', 'e'] then some (.bool true, rest.drop 3) else none
    else if c = 'f' then
      if rest.take 4 = [ 'a', 'l', 's', 'e'] then some (.bool false, rest.drop 4) else none
    else if c = 'n' then
      if rest.take 3 = [ 'u', 'l', 'l'] then some (.null, rest.drop 3) else none
    else if c = '\x7b' then
      match skipWs rest with
      | '\x7d' :: rest3 => some (.obj [], rest3)
      | rest2 => parseMembers fuel rest2
    else if c = '[' then
      match skipWs rest with
      | ']' :: rest3 => some (.arr [], rest3)
      | rest2 => parseElems fuel rest2
    else
      match parseNumber (c :: rest) with
      | some (q, rest2) => some (.num q, rest2)
      | none => none

/-- Parse the members of a JSON object after the opening brace (first key
expected at the head of the input). -/
def parseMembers : Nat → List Char → Option (JSVal × List Char)
  | 0, _ => none
  | fuel + 1, s =>
    match s with
    | '\"' :: rest =>
      (match parseStringBody rest with
       | some (k, rest2) =>
         (match skipWs rest2 with
          | ':' :: rest3 =>
            (match parseVal fuel (skipWs rest3) with
             | some (v, rest4) =>
               (match skipWs rest4 with
                | ',' :: rest5 =>
                  (match parseMembers fuel (skipWs rest5) with
                   | some (.obj fields, rest6) => some (.obj ((k, v) :: fields), rest6)
                   | _ => none)
                | '\x7d' :: rest5 => some (.obj [(k, v)], rest5)
                | _ => none)
             | none => none)
          | _ => none)
       | none => none)
    | _ => none

/-- Parse the elements of a JSON array after the opening bracket (first
element expected at the head of the input). -/
def parseElems : Nat → List Char → Option (JSVal × List Char)
  | 0, _ => none
  | fuel + 1, s =>
    match parseVal fuel s with
    | some (v, rest) =>
      (match skipWs rest with
       | ',' :: rest2 =>
         (match parseElems fuel (skipWs rest2) with
          | some (.arr xs, rest3) => some (.arr (v :: xs), rest3)
          | _ => none)
       | ']' :: rest2 => some (.arr [v], rest2)
       | _ => none)
    | none => none

end

/-- `JSON.parse`: parse a complete JSON text; fails on trailing garbage. -/
def parseJson (s : List Char) : Option JSVal :=
  match parseVal (s.length + 8) (skipWs s) with
  | some (v, rest) => if skipWs rest = [] then some v else none
  | none => none

/-! ### `streamMessage` (src/frontend/src/lib/api.ts, lines 118-151)

The generator reads body chunks, splits each chunk on `'\n'`, and processes
each resulting line: lines that are nonempty after trimming and start with
`"data: "` have their payload (`line.slice(6).trim()`) checked against the
`[DONE]` marker (which makes the generator return), and otherwise
`JSON.parse`d inside a `try` whose `catch` skips the line.  Chunks are
embedded as `List Char` (the `TextDecoder` with `stream: true` reassembles
code points split across byte chunks, so character granularity is exact). -/

/-- Characters stripped by JS `String.prototype.trim`. -/
def isJsTrimWs (c : Char) : Bool :=
  c == ' ' || c == '\t' || c == '\n' || c == '\r' || c == '\x0b' || c == '\x0c'

/-- JS `String.prototype.trim`. -/
def jsTrim (s : List Char) : List Char :=
  ((s.dropWhile isJsTrimWs).reverse.dropWhile isJsTrimWs).reverse

/-- JS `String.prototype.split('\n')`: splitting the empty string yields
`[""]`, and every `'\n'` separates two (possibly empty) fields. -/
def splitNewline : List Char → List (List Char)
  | [] => [[]]
  | c :: cs =>
    if c = '\n' then [] :: splitNewline cs
    else
      match splitNewline cs with
      | [] => [[c]]
      | l :: ls => (c :: l) :: ls

/-- An event yielded by `streamMessage` (`{type: 'content' | 'metadata', data}`). -/
inductive SMEvent where
  | content (data : JSVal)
  | metadata (data : JSVal)

/-- Strict equality `parsed.type === s` for a string literal `s`. -/
def typeIs (parsed : JSVal) (s : List Char) : Bool :=
  match jsGet parsed (chars "type") with
  | some (.str t) => decide (t = s)
  | _ => false

/-- The `if`/`else if` chain of `streamMessage` on a parsed payload:
`{type: 'content'}` frames with truthy `data` yield a content event;
`{type: 'sources'}` frames with truthy `data` yield a metadata event wrapping
the data in `{sources: ...}`; payloads with `type === 'metadata'` or a truthy
`session_id` yield the whole payload as a metadata event; everything else is
skipped.  (For `parsed = null` the property access throws and the `catch`
skips the line, which coincides with the fall-through `none`.) -/
def yieldForParsed (parsed : JSVal) : Option SMEvent :=
  if typeIs parsed (chars "content") && truthyOpt (jsGet parsed (chars "data")) then
    some (.content ((jsGet parsed (chars "data")).getD .null))
  else if typeIs parsed (chars "sources") && truthyOpt (jsGet parsed (chars "data")) then
    some (.metadata (.obj [(chars "sources", (jsGet parsed (chars "data")).getD .null)]))
  else if typeIs parsed (chars "metadata") || truthyOpt (jsGet parsed (chars "session_id")) then
    some (.metadata parsed)
  else none

/-- Outcome of the loop body for one line. -/
inductive LineStep where
  | skip
  | done
  | yield (e : SMEvent)

/-- Process one line of a chunk, as in the `for (const line of lines)` body. -/
def processLine (line : List Char) : LineStep :=
  if jsTrim line ≠ [] ∧ List.isPrefixOf (chars "data: ") line then
    let dataStr := jsTrim (line.drop 6)
    if dataStr = chars "[DONE]" then .done
    else
      match parseJson dataStr with
      | some parsed =>
        (match yieldForParsed parsed with
         | some e => .yield e
         | none => .skip)
      | none => .skip
  else .skip

/-- Process a list of lines; the Boolean records whether the `[DONE]` early
return fired (discarding the remaining lines). -/
def processLines : List (List Char) → List SMEvent × Bool
  | [] => ([], false)
  | line :: rest =>
    match processLine line with
    | .done => ([], true)
    | .skip => processLines rest
    | .yield e =>
      let r := processLines rest
      (e :: r.1, r.2)

/-- The full read loop of `streamMessage` over the body's chunks: each chunk
is split on `'\n'` and its lines processed; a `[DONE]` payload returns from
the generator, discarding all remaining chunks. -/
def streamChunks : List (List Char) → List SMEvent × Bool
  | [] => ([], false)
  | chunk :: rest =>
    let r := processLines (splitNewline chunk)
    if r.2 then (r.1, true)
    else
      let r2 := streamChunks rest
      (r.1 ++ r2.1, r2.2)

/-- The events `streamMessage` yields for a given delivery of the body. -/
def streamMessageEvents (chunks : List (List Char)) : List SMEvent :=
  (streamChunks chunks).1

/-- The payload of the `[DONE]` end-of-stream marker line. -/
def doneLine : List Char := chars "data: [DONE]"

/-- The `"data: "` line head checked by `line.startsWith('data: ')`. -/
def dataHead : List Char := chars "data: "

/-- A complete SSE data line carrying `p` as its payload. -/
def dataLine (p : List Char) : List Char := dataHead ++ p

/-- The event (if any) that a single well-delivered payload produces:
`JSON.parse` it and run the yield chain. -/
def payloadEvent (p : List Char) : Option SMEvent :=
  (parseJson p).bind yieldForParsed

/-- The bytes the backend emits for one SSE frame with payload `p`
(`"data: <p>\n\n"`). -/
def frameText (p : List Char) : List Char := dataHead ++ p ++ chars "\n\n"

/-- Concatenation of the frames of a list of payloads, i.e. the byte stream
a well-formed backend response body delivers. -/
def encodeFrames (ps : List (List Char)) : List Char := (ps.map frameText).flatten

/-! ### `AuthContext` (src/frontend/src/contexts/AuthContext.tsx)

The provider state, the mirrored `localStorage` keys, and the quota
functions `canSendMessage` / `incrementMessageCount` / `register`. -/

/-- The authenticated user record (`User` in src/frontend/src/types). -/
structure User where
  user_id : List Char
  email : List Char
  created_at : List Char
deriving DecidableEq

/-- The `AuthState` held by `AuthProvider`. -/
structure AuthState where
  user : Option User
  isAuthenticated : Bool
  isAnonymous : Bool
  anonymousMessageCount : Nat
  loading : Bool
deriving DecidableEq

/-- `ANONYMOUS_MESSAGE_LIMIT` (AuthContext.tsx line 18). -/
def ANONYMOUS_MESSAGE_LIMIT : Nat := 3

/-- The three `localStorage` keys the frontend uses (`access_token`,
`anonymous_message_count`, `eloquent_session_id`); a `none` value means the
key is absent, and values are stored as strings. -/
structure LocalStorage where
  accessToken : Option (List Char)
  messageCount : Option (List Char)
  sessionId : Option (List Char)
deriving DecidableEq

/-- Provider state together with the browser storage it mirrors into. -/
structure ClientState where
  auth : AuthState
  storage : LocalStorage
deriving DecidableEq

/-- Decimal rendering of a count, as `newCount.toString()` stores it. -/
def natChars (n : Nat) : List Char := (Nat.repr n).data

/-- `canSendMessage` (AuthContext.tsx lines 117-122): authenticated users can
always send; otherwise the anonymous count must be below the limit. -/
def canSendMessage (s : AuthState) : Bool :=
  if s.isAuthenticated then true
  else decide (s.anonymousMessageCount < ANONYMOUS_MESSAGE_LIMIT)

/-- `incrementMessageCount` (AuthContext.tsx lines 109-115): in anonymous
state, bump the count by one and mirror it to `localStorage`; otherwise do
nothing. -/
def incrementMessageCount (s : ClientState) : ClientState :=
  if s.auth.isAnonymous then
    { auth := { s.auth with anonymousMessageCount := s.auth.anonymousMessageCount + 1 },
      storage := { s.storage with
                    messageCount := some (natChars (s.auth.anonymousMessageCount + 1)) } }
  else s

/-- `getAnonymousSessionId` (AuthContext.tsx lines 124-126). -/
def getAnonymousSessionId (s : ClientState) : Option (List Char) :=
  s.storage.sessionId

/-- Which API endpoint `register` invokes. -/
inductive RegisterCall where
  | promoteAnonymous (email password sessionId : List Char)
  | plainRegister (email password : List Char)
deriving DecidableEq

/-- The endpoint choice inside `register` (AuthContext.tsx lines 73-80):
`if (sessionId && state.anonymousMessageCount > 0)` call promote-anonymous
with the stored id, otherwise the plain register endpoint.  (`sessionId` is
`string | null`; both `null` and the empty string are falsy.) -/
def registerApiCall (s : ClientState) (email password : List Char) : RegisterCall :=
  match getAnonymousSessionId s with
  | some sessionId =>
    if !sessionId.isEmpty && decide (0 < s.auth.anonymousMessageCount) then
      .promoteAnonymous email password sessionId
    else .plainRegister email password
  | none => .plainRegister email password

/-- The state after `register` resolves (AuthContext.tsx lines 82-92): the
response user is installed, the state becomes authenticated and
non-anonymous with a zero count, and both anonymous `localStorage` keys are
removed.  (`promoteAnonymous`/`register` in api.ts also store the access
token first.) -/
def registerSuccessState (s : ClientState) (respUser : Option User)
    (accessToken : List Char) : ClientState :=
  { auth := { user := respUser, isAuthenticated := true, isAnonymous := false,
              anonymousMessageCount := 0, loading := false },
    storage := { s.storage with
                  accessToken := some accessToken
                  messageCount := none
                  sessionId := none } }

/-- One completed send in the chat page (src/frontend/src/app/documents/page.tsx):
`handleSendMessage` refuses when `canSendMessage()` is false, and a
successful send fires `onMessageSent`, which calls `incrementMessageCount`. -/
def completedSend (s : ClientState) : Option ClientState :=
  if canSendMessage s.auth then some (incrementMessageCount s) else none

/-- `n` consecutive completed sends. -/
def completedSends : Nat → ClientState → Option ClientState
  | 0, s => some s
  | n + 1, s => (completedSend s).bind (completedSends n)

/-- A fresh anonymous client state (count zero) over the given storage. -/
def anonymousStart (st : LocalStorage) : ClientState :=
  { auth := { user := none, isAuthenticated := false, isAnonymous := true,
              anonymousMessageCount := 0, loading := false },
    storage := st }

/-- An anonymous client state with count `c` (helper for induction). -/
def anonState (st : LocalStorage) (c : Nat) : ClientState :=
  { auth := { user := none, isAuthenticated := false, isAnonymous := true,
              anonymousMessageCount := c, loading := false },
    storage := st }

/-! ### `useChat` (src/hooks/useChat.ts)

The send-message mutation: `mutationFn` appends the user message, then
drives `streamMessage`, accumulating `fullResponse` and `metadata`;
`onSuccess` appends the completed assistant message and records its sources
at the assistant's index; `onError` appends a fixed apology message.
`setMessagesFromHistory` reconstructs the sources map from a loaded
history.  React state updates are embedded as a trace of actions on a
`ChatState`. -/

/-- Message roles (`'user' | 'assistant' | 'system'`). -/
inductive Role where
  | user
  | assistant
  | system
deriving DecidableEq

/-- A frontend `Message`: role, content, timestamp, and the optional raw
`sources` value that came with it from the API (an array of source objects,
or of string ids in the legacy format). -/
structure FMessage where
  role : Role
  content : List Char
  timestamp : List Char
  sources : Option JSVal

/-- The `metadata` accumulator of `mutationFn` (initial value
`{session_id: "", sources: []}`). -/
structure StreamMeta where
  session_id : JSVal
  sources : JSVal

/-- `metadata = {...metadata, ...chunk.data}`: spreading an object overwrites
the tracked fields that it carries; spreading a non-object value leaves both
tracked fields unchanged. -/
def mergeMeta (m : StreamMeta) (d : JSVal) : StreamMeta :=
  match d with
  | .obj fields =>
    { session_id := (lookupLast fields (chars "session_id")).getD m.session_id,
      sources := (lookupLast fields (chars "sources")).getD m.sources }
  | _ => m

/-- JS string coercion used by `fullResponse += chunk.data`.  Content deltas
are strings, which is the only case any theorem relies on; for the remaining
values a stand-in rendering is used. -/
def jsToStringChars : JSVal → List Char
  | .null => chars "null"
  | .bool true => chars "true"
  | .bool false => chars "false"
  | .num q => (toString q).data
  | .str s => s
  | .arr _ => chars "[array]"
  | .obj _ => chars "[object Object]"

/-- The mutable loop state of `mutationFn`'s `for await` loop. -/
structure RunAcc where
  fullResponse : List Char
  meta : StreamMeta

/-- The initial loop state. -/
def initAcc : RunAcc :=
  { fullResponse := [], meta := { session_id := .str [], sources := .arr [] } }

/-- One loop iteration: content chunks extend `fullResponse`, metadata
chunks are merged into `metadata`. -/
def consumeEvent (acc : RunAcc) : SMEvent → RunAcc
  | .content d => { acc with fullResponse := acc.fullResponse ++ jsToStringChars d }
  | .metadata d => { acc with meta := mergeMeta acc.meta d }

/-- An observable state update performed during one send. -/
inductive ChatAction where
  | appendUser (content ts : List Char)
  | consume (e : SMEvent)
  | appendAssistant (content ts : List Char) (recorded : Option JSVal)

/-- The `for await` loop: fold the consumed events into the accumulator
while tracing each consumption. -/
def streamLoop (acc : RunAcc) : List SMEvent → RunAcc × List ChatAction
  | [] => (acc, [])
  | e :: rest =>
    let r := streamLoop (consumeEvent acc e) rest
    (r.1, .consume e :: r.2)

/-- `data.sources && data.sources.length > 0` on the raw `sources` value. -/
def hasSources : JSVal → Bool
  | .arr xs => !xs.isEmpty
  | .str s => !s.isEmpty
  | _ => false

/-- `metadata.sources || []`. -/
def resultSources (meta : StreamMeta) : JSVal :=
  if truthy meta.sources then meta.sources else .arr []

/-- The onSuccess fallback text (`data.content || ...`). -/
def apologyEmptyText : List Char :=
  chars "I apologize, but I encountered an error generating a response."

/-- The onError assistant text. -/
def apologyErrorText : List Char :=
  chars "I apologize, but I encountered an error. Please try again."

/-- The full trace of one send: `mutationFn` appends the user message (with
timestamp `tsU`) before consuming the stream; the consumed events are `evs`
(a prefix of the stream if it threw); if the stream completed (`ok`),
`onSuccess` appends the assistant message built from the accumulated
response (recording its nonempty sources), otherwise `onError` appends the
fixed apology. -/
def sendTrace (message tsU tsA : List Char) (evs : List SMEvent) (ok : Bool) :
    List ChatAction :=
  let r := streamLoop initAcc evs
  ChatAction.appendUser message tsU :: r.2 ++
    [if ok then
       ChatAction.appendAssistant
         (if r.1.fullResponse = [] then apologyEmptyText else r.1.fullResponse) tsA
         (if hasSources (resultSources r.1.meta) then some (resultSources r.1.meta) else none)
     else ChatAction.appendAssistant apologyErrorText tsA none]

/-- The `useChat` state observable by the page: the message list and the
per-index sources map (`{[key: number]: Source[]}`). -/
structure ChatState where
  messages : List FMessage
  sources : List (Nat × JSVal)

/-- Spread-update of the sources map at key `k` (`{...prev, [k]: v}`). -/
def setSourcesAt (m : List (Nat × JSVal)) (k : Nat) (v : JSVal) : List (Nat × JSVal) :=
  if m.any (fun p => p.1 == k) then m.map (fun p => if p.1 = k then (k, v) else p)
  else m ++ [(k, v)]

/-- Lookup in the sources map. -/
def sourcesAt (m : List (Nat × JSVal)) (k : Nat) : Option JSVal :=
  (m.find? (fun p => p.1 == k)).map (fun p => p.2)

/-- Apply one action to the `useChat` state: `onSuccess` computes
`newMessages = [...prev, assistantMessage]` and stores the sources at index
`newMessages.length - 1`. -/
def applyAction (s : ChatState) : ChatAction → ChatState
  | .appendUser c ts => { s with messages := s.messages ++ [⟨.user, c, ts, none⟩] }
  | .consume _ => s
  | .appendAssistant c ts recorded =>
    let newMessages := s.messages ++ [⟨.assistant, c, ts, none⟩]
    { messages := newMessages,
      sources :=
        match recorded with
        | some v => setSourcesAt s.sources (newMessages.length - 1) v
        | none => s.sources }

/-- Apply a trace of actions. -/
def applyTrace (s : ChatState) (acts : List ChatAction) : ChatState :=
  acts.foldl applyAction s

/-- Whether `setMessagesFromHistory`'s loop records this message's sources:
it needs a nonempty `sources` array whose first element is not a string (the
legacy id format is skipped); a nonempty string value would also pass the
length check but its first indexed element is a string, so it is skipped
too. -/
def recordableSources (m : FMessage) : Bool :=
  match m.sources with
  | some (.arr (x :: _)) =>
    (match x with
     | .str _ => false
     | _ => true)
  | _ => false

/-- The reconstruction loop of `setMessagesFromHistory` starting at index
`i`: messages with recordable sources contribute their raw sources value at
their index. -/
def reconstructSourcesAux : Nat → List FMessage → List (Nat × JSVal)
  | _, [] => []
  | i, m :: rest =>
    if recordableSources m then
      (i, (m.sources).getD .null) :: reconstructSourcesAux (i + 1) rest
    else reconstructSourcesAux (i + 1) rest

/-- `setMessagesFromHistory` (useChat.ts lines 140-162): install the history
as the message list and rebuild the sources map from it. -/
def setMessagesFromHistory (h : List FMessage) : ChatState :=
  { messages := h, sources := reconstructSourcesAux 0 h }

/-- The invariant that sources are only ever recorded at indices holding
assistant messages. -/
def sourcesOnAssistantOnly (s : ChatState) : Prop :=
  ∀ k v, sourcesAt s.sources k = some v →
    ∃ m, s.messages.get? k = some m ∧ m.role = Role.assistant

/-! ### `ChatMessage` / `SourcesDisplay` rendering -/

/-- `SourcesDisplay` returns `null` when `!sources || sources.length === 0`. -/
def sourcesDisplayVisible : JSVal → Bool
  | .arr xs => !xs.isEmpty
  | v => truthy v

/-- Whether `ChatMessage` renders a sources panel: the panel subtree is
`{!isUser && <SourcesDisplay sources={sources || []} />}` where `isUser`
is `message.role === 'user'`. -/
def chatMessageShowsSourcesPanel (m : FMessage) (sources : Option JSVal) : Bool :=
  !(m.role == Role.user) && sourcesDisplayVisible (sources.getD (.arr []))

/-! ### `useChatSessions` (src/frontend/src/hooks/useChatSessions.ts)

The delete mutation with its optimistic update: `onMutate` snapshots the
`['sessions']` query cache and filters the deleted id out of it; `onError`
rolls the cache back to the snapshot; on success the `deleteSession` wrapper
clears `currentSessionId` when it pointed at the deleted session.  The
query cache is `Option`-valued (`getQueryData` can return `undefined`). -/

/-- A `ChatSession` (src/frontend/src/types). -/
structure ChatSession where
  session_id : List Char
  user_id : Option (List Char)
  title : Option (List Char)
  created_at : List Char
  updated_at : List Char
  message_count : Nat
deriving DecidableEq

/-- The state touched by the delete mutation. -/
structure SessionsState where
  cache : Option (List ChatSession)
  currentSessionId : Option (List Char)
deriving DecidableEq

/-- `onMutate`: snapshot the previous cache value and optimistically set the
cache to `old?.filter((s) => s.session_id !== sessionId) || []`.  Returns
the new state and the snapshot (`context.previousSessions`). -/
def deleteOnMutate (s : SessionsState) (sessionId : List Char) :
    SessionsState × Option (List ChatSession) :=
  ({ s with
      cache := some (match s.cache with
        | some old => old.filter (fun c => decide (c.session_id ≠ sessionId))
        | none => []) },
   s.cache)

/-- `onError`: roll back to the snapshot when one was captured (an
`undefined` snapshot is falsy, so nothing is restored in that case). -/
def deleteOnError (s : SessionsState) (previousSessions : Option (List ChatSession)) :
    SessionsState :=
  match previousSessions with
  | some l => { s with cache := some l }
  | none => s

/-- The `deleteSession` wrapper around `mutateAsync`: `onMutate` runs first;
if the HTTP delete succeeds the wrapper clears `currentSessionId` when it
was the deleted session; if it fails, `onError` rolls back and the `await`
rethrows, so the wrapper never touches `currentSessionId`. -/
def deleteSessionRun (s : SessionsState) (sessionId : List Char) (ok : Bool) :
    SessionsState :=
  let m := deleteOnMutate s sessionId
  if ok then
    if m.1.currentSessionId = some sessionId then { m.1 with currentSessionId := none }
    else m.1
  else deleteOnError m.1 m.2

/-! ## Lemmas about the `streamMessage` embedding -/

theorem isPrefixOf_append_self (l r : List Char) : List.isPrefixOf l (l ++ r) = true := by
  induction l with
  | nil => simp [List.isPrefixOf]
  | cons c l ih => simp [List.isPrefixOf, ih]

theorem jsTrim_cons_ne_nil (c : Char) (s : List Char) (hc : isJsTrimWs c = false) :
    jsTrim (c :: s) ≠ [] := by
  intro hcon
  unfold jsTrim at hcon
  rw [List.dropWhile_cons, hc] at hcon
  simp only [Bool.false_eq_true, if_false] at hcon
  have h1 : (c :: s).reverse.dropWhile isJsTrimWs = [] := by
    simpa using congrArg List.reverse hcon
  have h2 := List.dropWhile_eq_nil_iff.mp h1 c (by simp)
  simp [hc] at h2

/-- The branch structure of `processLine` on a well-delivered data line. -/
theorem processLine_dataLine (p : List Char) (hp : jsTrim p = p) :
    processLine (dataLine p) =
      if p = chars "[DONE]" then .done
      else
        match parseJson p with
        | some parsed =>
          (match yieldForParsed parsed with
           | some e => LineStep.yield e
           | none => LineStep.skip)
        | none => LineStep.skip := by
  have htrim : jsTrim (dataLine p) ≠ [] := by
    have : dataLine p = 'd' :: (chars "ata: " ++ p) := rfl
    rw [this]
    exact jsTrim_cons_ne_nil _ _ rfl
  have hpre : List.isPrefixOf (chars "data: ") (dataLine p) = true :=
    isPrefixOf_append_self _ _
  have hdrop : (dataLine p).drop 6 = p := by
    have h6 : (6 : Nat) = dataHead.length := rfl
    rw [dataLine, h6, List.drop_left]
  rw [processLine, if_pos ⟨htrim, hpre⟩, hdrop, hp]

theorem processLines_append (xs ys : List (List Char)) :
    processLines (xs ++ ys) =
      if (processLines xs).2 then processLines xs
      else ((processLines xs).1 ++ (processLines ys).1, (processLines ys).2) := by
  induction xs with
  | nil => simp [processLines]
  | cons x xs ih =>
    cases hx : processLine x with
    | done => simp [processLines, hx]
    | skip => simpa [processLines, hx] using ih
    | yield e =>
      simp only [List.cons_append, processLines, hx]
      by_cases h2 : (processLines xs).2 <;> simp [ih, h2]

theorem streamChunks_append (cs ds : List (List Char)) (h : (streamChunks cs).2 = true) :
    streamChunks (cs ++ ds) = streamChunks cs := by
  induction cs with
  | nil => simp [streamChunks] at h
  | cons c cs ih =>
    simp only [streamChunks] at h ⊢
    by_cases hc : (processLines (splitNewline c)).2
    · simp [hc]
    · simp only [hc, Bool.false_eq_true, if_false] at h ⊢
      simp [ih h]

/-! ## Claim C8 -/

/-- Claim C8: once `streamMessage` reads a frame whose payload is the
end-of-stream marker `[DONE]`, it returns immediately and never yields
another event, regardless of any data remaining in the response body.
First conjunct: within any sequence of lines, everything after a
`data: [DONE]` line is discarded and processing stops.  Second conjunct: a
run that hit the marker is unchanged by any further chunks of the body. -/
theorem streamMessage_done_is_terminal :
    (∀ xs ys : List (List Char),
        processLines (xs ++ doneLine :: ys) = ((processLines xs).1, true)) ∧
    (∀ cs ds : List (List Char),
        (streamChunks cs).2 = true → streamChunks (cs ++ ds) = streamChunks cs) := by
  constructor
  · intro xs ys
    have hdone : processLines (doneLine :: ys) = ([], true) := by
      have h : processLine doneLine = .done := rfl
      simp [processLines, h]
    rw [processLines_append, hdone]
    by_cases h2 : (processLines xs).2
    · rw [if_pos h2]
      have : processLines xs = ((processLines xs).1, (processLines xs).2) := rfl
      rw [this, h2]
    · simp [h2]
  · exact streamChunks_append

theorem streamMessage_done_is_terminal_witness :
    (streamChunks [chars "data: [DONE]"]).2 = true ∧
    streamChunks ([chars "data: [DONE]"] ++ [chars "data: after"]) =
      streamChunks [chars "data: [DONE]"] :=
  ⟨rfl, streamMessage_done_is_terminal.2 _ _ rfl⟩

/-! ## Claim C2 -/

/-- Claim C2: if a `data: ` line carries a payload that is not valid JSON,
`streamMessage` skips that line without throwing, and continues to yield
events for every subsequent well-formed frame: deleting the malformed line
from the line sequence does not change the produced events at all. -/
theorem streamMessage_skips_malformed (xs ys : List (List Char)) (p : List Char)
    (htrim : jsTrim p = p) (hparse : parseJson p = none)
    (hdone : p ≠ chars "[DONE]") :
    processLines (xs ++ dataLine p :: ys) = processLines (xs ++ ys) := by
  have hskip : processLine (dataLine p) = .skip := by
    rw [processLine_dataLine p htrim, if_neg hdone, hparse]
  have hmid : processLines (dataLine p :: ys) = processLines ys := by
    simp [processLines, hskip]
  rw [processLines_append, hmid, ← processLines_append]

theorem streamMessage_skips_malformed_witness :
    processLines
        ([chars "data: \x7b\"type\": \"content\", \"data\": \"A\"\x7d"] ++
          dataLine (chars "oops not json") ::
            [chars "data: \x7b\"type\": \"content\", \"data\": \"B\"\x7d"]) =
      processLines
        ([chars "data: \x7b\"type\": \"content\", \"data\": \"A\"\x7d"] ++
          [chars "data: \x7b\"type\": \"content\", \"data\": \"B\"\x7d"]) :=
  streamMessage_skips_malformed _ _ _ rfl rfl (by decide)

/-! ## Claim C1 -/

theorem splitNewline_ne_nil (s : List Char) : splitNewline s ≠ [] := by
  cases s with
  | nil => simp [splitNewline]
  | cons c cs =>
    rw [splitNewline]
    by_cases hc : c = '\n'
    · simp [hc]
    · simp only [hc, if_false]
      cases splitNewline cs <;> simp

theorem splitNewline_append_newline (l rest : List Char) (hl : '\n' ∉ l) :
    splitNewline (l ++ '\n' :: rest) = l :: splitNewline rest := by
  induction l with
  | nil => simp [splitNewline]
  | cons c l ih =>
    have hc : ¬ c = '\n' := fun h => hl (h ▸ List.mem_cons_self c l)
    have hl2 : '\n' ∉ l := fun h => hl (List.mem_cons_of_mem c h)
    rw [List.cons_append, splitNewline, if_neg hc, ih hl2]

/-- Splitting a concatenation of complete SSE frames yields, per frame, its
data line and the empty line of the separating blank, plus a final empty
tail line. -/
theorem splitNewline_encodeFrames (ps : List (List Char))
    (h : ∀ p ∈ ps, '\n' ∉ p) :
    splitNewline (encodeFrames ps) =
      (ps.flatMap fun p => [dataLine p, []]) ++ [[]] := by
  induction ps with
  | nil => simp [encodeFrames, splitNewline]
  | cons p ps ih =>
    have hp : '\n' ∉ dataLine p := by
      intro hmem
      rcases List.mem_append.mp hmem with hmem | hmem
      · revert hmem; decide
      · exact h p (List.mem_cons_self p ps) hmem
    have hrest : ∀ q ∈ ps, '\n' ∉ q := fun q hq => h q (List.mem_cons_of_mem p hq)
    have hassoc : encodeFrames (p :: ps) =
        dataLine p ++ '\n' :: ('\n' :: encodeFrames ps) := by
      simp [encodeFrames, frameText, dataLine, chars, List.append_assoc]
    rw [hassoc, splitNewline_append_newline _ _ hp]
    rw [show splitNewline ('\n' :: encodeFrames ps) = [] :: splitNewline (encodeFrames ps)
        from by rw [splitNewline]; simp]
    simp [ih hrest]

/-- Processing the lines of a sequence of well-delivered frames yields
exactly the events of the payloads, in order, and never fires the early
return. -/
theorem processLines_empty_cons (ls : List (List Char)) :
    processLines ([] :: ls) = processLines ls := rfl

/-- On a well-delivered data line, `processLine` acts as `payloadEvent`. -/
theorem processLine_dataLine_event (p : List Char) (htrim : jsTrim p = p)
    (hdone : p ≠ chars "[DONE]") :
    processLine (dataLine p) =
      match payloadEvent p with
      | some e => LineStep.yield e
      | none => LineStep.skip := by
  rw [processLine_dataLine p htrim, if_neg hdone, payloadEvent]
  cases parseJson p <;> simp

theorem processLines_frameLines (ps : List (List Char))
    (h : ∀ p ∈ ps, jsTrim p = p ∧ p ≠ chars "[DONE]") :
    processLines ((ps.flatMap fun p => [dataLine p, []]) ++ [[]]) =
      (ps.filterMap payloadEvent, false) := by
  induction ps with
  | nil =>
    have hempty : processLine [] = LineStep.skip := rfl
    simp [processLines, hempty]
  | cons p ps ih =>
    have hp := h p (List.mem_cons_self p ps)
    have hrest := fun q hq => h q (List.mem_cons_of_mem p hq)
    have hline := processLine_dataLine_event p hp.1 hp.2
    have tail_eq := ih hrest
    show processLines
        (dataLine p :: [] :: ((ps.flatMap fun q => [dataLine q, []]) ++ [[]])) =
      ((p :: ps).filterMap payloadEvent, false)
    rw [processLines, hline, processLines_empty_cons, tail_eq]
    cases hpe : payloadEvent p <;> simp [List.filterMap_cons, hpe]

/-- The nested chunk/line loops process exactly the concatenation of the
per-chunk line lists. -/
theorem streamChunks_as_processLines (cs : List (List Char)) :
    streamChunks cs = processLines ((cs.map splitNewline).flatten) := by
  induction cs with
  | nil => simp [streamChunks, processLines]
  | cons c cs ih =>
    rw [List.map_cons, List.flatten_cons, processLines_append]
    by_cases hc : (processLines (splitNewline c)).2
    · have h1 : streamChunks (c :: cs) = ((processLines (splitNewline c)).1, true) := by
        rw [streamChunks]; simp [hc]
      rw [if_pos hc, h1]
      conv_rhs => rw [show processLines (splitNewline c) =
        ((processLines (splitNewline c)).1, (processLines (splitNewline c)).2) from rfl]
      rw [hc]
    · have h1 : streamChunks (c :: cs) =
          ((processLines (splitNewline c)).1 ++ (streamChunks cs).1, (streamChunks cs).2) := by
        rw [streamChunks]; simp [hc]
      rw [if_neg hc, h1, ih]

/-- Delivering a sequence of frame groups with chunk boundaries on frame
boundaries produces exactly one event per payload (as classified by
`payloadEvent`), in emission order, with no early return. -/
theorem streamChunks_encodeFrames (pss : List (List (List Char)))
    (h : ∀ p ∈ pss.flatten, ('\n' ∉ p) ∧ jsTrim p = p ∧ p ≠ chars "[DONE]") :
    streamChunks (pss.map encodeFrames) =
      (pss.flatten.filterMap payloadEvent, false) := by
  induction pss with
  | nil => simp [streamChunks]
  | cons ps pss ih =>
    have h' : ∀ p ∈ ps ++ pss.flatten, ('\n' ∉ p) ∧ jsTrim p = p ∧ p ≠ chars "[DONE]" := h
    have hps := fun p hp => h' p (List.mem_append_left _ hp)
    have hrest := fun p hp => h' p (List.mem_append_right _ hp)
    have hsplit : splitNewline (encodeFrames ps) =
        (ps.flatMap fun p => [dataLine p, []]) ++ [[]] :=
      splitNewline_encodeFrames ps (fun p hp => (hps p hp).1)
    have hproc : processLines (splitNewline (encodeFrames ps)) =
        (ps.filterMap payloadEvent, false) := by
      rw [hsplit]
      exact processLines_frameLines ps (fun p hp => ⟨(hps p hp).2.1, (hps p hp).2.2⟩)
    simp only [List.map_cons, streamChunks, hproc, ih hrest]
    simp [List.filterMap_append]

/-- Claim C1 (counterexample): the events `streamMessage` yields are not
determined by the delivered byte stream alone.  The same bytes — one
well-formed `{type: content}` frame — yield the content event when they
arrive in a single chunk, but no event at all when the line is split across
two chunks, because each chunk is split on `'\n'` separately and no partial
line is buffered across reads. -/
theorem streamMessage_chunking_counterexample :
    streamMessageEvents
        [chars "data: \x7b\"ty" ++ chars "pe\": \"content\", \"data\": \"Hi\"\x7d\n"] =
      [SMEvent.content (JSVal.str (chars "Hi"))] ∧
    streamMessageEvents
        [chars "data: \x7b\"ty", chars "pe\": \"content\", \"data\": \"Hi\"\x7d\n"] = [] :=
  ⟨rfl, rfl⟩

/-- Claim C1 (amended): provided every SSE line is delivered within a single
chunk (chunk boundaries fall on frame boundaries), `streamMessage` yields
exactly one event per well-formed frame, in the frames' emission order, with
no dropped and no duplicated events: a content event for each
`{type: content}` frame whose data is truthy (a nonempty token text), a
metadata event wrapping `{sources: ...}` for each `{type: sources}` frame
with truthy data, and a metadata event for each `{type: metadata}` frame. -/
theorem streamMessage_one_event_per_frame :
    (∀ pss : List (List (List Char)),
        (∀ p ∈ pss.flatten, ('\n' ∉ p) ∧ jsTrim p = p ∧ p ≠ chars "[DONE]") →
        streamChunks (pss.map encodeFrames) =
          (pss.flatten.filterMap payloadEvent, false)) ∧
    (∀ d : JSVal, truthy d = true →
        yieldForParsed (.obj [(chars "type", .str (chars "content")), (chars "data", d)]) =
          some (.content d)) ∧
    (∀ d : JSVal, truthy d = true →
        yieldForParsed (.obj [(chars "type", .str (chars "sources")), (chars "data", d)]) =
          some (.metadata (.obj [(chars "sources", d)]))) ∧
    (∀ d : JSVal,
        yieldForParsed (.obj [(chars "type", .str (chars "metadata")), (chars "data", d)]) =
          some (.metadata
            (.obj [(chars "type", .str (chars "metadata")), (chars "data", d)]))) := by
  refine ⟨streamChunks_encodeFrames, ?_, ?_, ?_⟩
  · intro d hd
    have h1 : typeIs (JSVal.obj [(chars "type", JSVal.str (chars "content")),
        (chars "data", d)]) (chars "content") = true := rfl
    have h2 : jsGet (JSVal.obj [(chars "type", JSVal.str (chars "content")),
        (chars "data", d)]) (chars "data") = some d := rfl
    simp [yieldForParsed, h1, h2, truthyOpt, hd]
  · intro d hd
    have h1 : typeIs (JSVal.obj [(chars "type", JSVal.str (chars "sources")),
        (chars "data", d)]) (chars "content") = false := rfl
    have h2 : typeIs (JSVal.obj [(chars "type", JSVal.str (chars "sources")),
        (chars "data", d)]) (chars "sources") = true := rfl
    have h3 : jsGet (JSVal.obj [(chars "type", JSVal.str (chars "sources")),
        (chars "data", d)]) (chars "data") = some d := rfl
    simp [yieldForParsed, h1, h2, h3, truthyOpt, hd]
  · intro d
    have h1 : typeIs (JSVal.obj [(chars "type", JSVal.str (chars "metadata")),
        (chars "data", d)]) (chars "content") = false := rfl
    have h2 : typeIs (JSVal.obj [(chars "type", JSVal.str (chars "metadata")),
        (chars "data", d)]) (chars "sources") = false := rfl
    have h3 : typeIs (JSVal.obj [(chars "type", JSVal.str (chars "metadata")),
        (chars "data", d)]) (chars "metadata") = true := rfl
    simp [yieldForParsed, h1, h2, h3]

theorem streamMessage_one_event_per_frame_witness :
    streamChunks
        ([[chars "\x7b\"type\": \"content\", \"data\": \"Hello\"\x7d"],
          [chars "\x7b\"type\": \"sources\", \"data\": [\x7b\"id\": \"doc1\"\x7d]\x7d",
           chars "\x7b\"type\": \"metadata\", \"data\": \x7b\"session_id\": \"s1\"\x7d\x7d"]].map
          encodeFrames) =
      ([SMEvent.content (.str (chars "Hello")),
        SMEvent.metadata (.obj [(chars "sources",
          .arr [.obj [(chars "id", .str (chars "doc1"))]])]),
        SMEvent.metadata (.obj [(chars "type", .str (chars "metadata")),
          (chars "data", .obj [(chars "session_id", .str (chars "s1"))])])], false) :=
  (streamMessage_one_event_per_frame.1
      [[chars "\x7b\"type\": \"content\", \"data\": \"Hello\"\x7d"],
       [chars "\x7b\"type\": \"sources\", \"data\": [\x7b\"id\": \"doc1\"\x7d]\x7d",
        chars "\x7b\"type\": \"metadata\", \"data\": \x7b\"session_id\": \"s1\"\x7d\x7d"]]
      (by decide)).trans (by rfl)

/-! ## Claim C3 -/

/-- Claim C3: `canSendMessage` returns true for every authenticated state;
for an anonymous (unauthenticated) state it returns true exactly when
`anonymousMessageCount` is strictly below the limit 3. -/
theorem canSendMessage_spec (s : AuthState) :
    (s.isAuthenticated = true → canSendMessage s = true) ∧
    (s.isAuthenticated = false →
      (canSendMessage s = true ↔ s.anonymousMessageCount < ANONYMOUS_MESSAGE_LIMIT)) := by
  constructor
  · intro h; simp [canSendMessage, h]
  · intro h; simp [canSendMessage, h]

theorem canSendMessage_spec_witness :
    canSendMessage ⟨none, true, false, 5, false⟩ = true ∧
    (canSendMessage ⟨none, false, true, 2, false⟩ = true ↔ 2 < ANONYMOUS_MESSAGE_LIMIT) ∧
    (canSendMessage ⟨none, false, true, 3, false⟩ = true ↔ 3 < ANONYMOUS_MESSAGE_LIMIT) :=
  ⟨(canSendMessage_spec _).1 rfl, (canSendMessage_spec _).2 rfl,
   (canSendMessage_spec _).2 rfl⟩

/-! ## Claim C4 -/

/-- Characterization of a run of completed sends from an anonymous state:
each authorized send bumps the count by one and mirrors it to storage, and a
send is authorized only below the limit. -/
theorem completedSends_anonState (n : Nat) :
    ∀ (c : Nat) (st : LocalStorage) (s : ClientState),
      completedSends n (anonState st c) = some s →
      s = anonState
            (if n = 0 then st
             else { st with messageCount := some (natChars (c + n)) }) (c + n) ∧
      (0 < n → c + n ≤ ANONYMOUS_MESSAGE_LIMIT) := by
  induction n with
  | zero =>
    intro c st s h
    simp only [completedSends, Option.some.injEq] at h
    subst h
    simp
  | succ n ih =>
    intro c st s h
    by_cases hc : c < ANONYMOUS_MESSAGE_LIMIT
    · have hsend : completedSend (anonState st c) =
          some (anonState { st with messageCount := some (natChars (c + 1)) } (c + 1)) := by
        simp [completedSend, canSendMessage, anonState, incrementMessageCount, hc]
      rw [completedSends, hsend, Option.some_bind] at h
      obtain ⟨hs, hb⟩ := ih (c + 1) _ s h
      have harith : c + 1 + n = c + (n + 1) := by omega
      constructor
      · rw [hs]
        rcases Nat.eq_zero_or_pos n with h0 | h0
        · subst h0; simp
        · rw [if_neg (Nat.pos_iff_ne_zero.mp h0), harith]
          simp [Nat.succ_ne_zero]
      · intro _
        rcases Nat.eq_zero_or_pos n with h0 | h0
        · subst h0; omega
        · have := hb h0; omega
    · exfalso
      have hsend : completedSend (anonState st c) = none := by
        simp [completedSend, canSendMessage, anonState, hc]
      rw [completedSends, hsend, Option.none_bind] at h
      exact Option.noConfusion h

/-- Claim C4: starting from an anonymous state with `anonymousMessageCount = 0`,
after `N` completed sends the count equals `N` (each `incrementMessageCount`
in anonymous state adds exactly one and mirrors the new count to
`localStorage`), and the count never exceeds the limit 3 before promotion. -/
theorem anonymous_quota_after_sends (st : LocalStorage) (n : Nat) (s : ClientState)
    (h : completedSends n (anonymousStart st) = some s) :
    s.auth.anonymousMessageCount = n ∧ n ≤ ANONYMOUS_MESSAGE_LIMIT ∧
    (0 < n → s.storage.messageCount = some (natChars n)) := by
  have hstart : anonymousStart st = anonState st 0 := rfl
  rw [hstart] at h
  obtain ⟨hs, hb⟩ := completedSends_anonState n 0 st s h
  subst hs
  refine ⟨by simp [anonState], ?_, ?_⟩
  · rcases Nat.eq_zero_or_pos n with h0 | h0
    · subst h0; decide
    · simpa using hb h0
  · intro hn
    rw [if_neg (Nat.pos_iff_ne_zero.mp hn)]
    simp [anonState]

theorem anonymous_quota_after_sends_witness :
    completedSends 3 (anonymousStart ⟨none, none, none⟩) =
      some (anonState ⟨none, some (chars "3"), none⟩ 3) ∧
    ((anonState ⟨none, some (chars "3"), none⟩ 3).auth.anonymousMessageCount = 3 ∧
      3 ≤ ANONYMOUS_MESSAGE_LIMIT ∧
      (0 < 3 → (anonState ⟨none, some (chars "3"), none⟩ 3).storage.messageCount =
        some (natChars 3))) :=
  ⟨rfl, anonymous_quota_after_sends ⟨none, none, none⟩ 3 _ rfl⟩

/-! ## Claim C6 -/

/-- Claim C6: after `register` resolves successfully, the state is
authenticated and non-anonymous with `anonymousMessageCount = 0`, both the
anonymous message-count key and the anonymous session-id key are removed
from `localStorage`, sends are always authorized, and
`incrementMessageCount` is a no-op on the promoted state — so quota
tracking for the anonymous identity is retired and never re-applied. -/
theorem register_success_retires_quota (s : ClientState) (u : Option User)
    (tok : List Char) :
    (registerSuccessState s u tok).auth.isAuthenticated = true ∧
    (registerSuccessState s u tok).auth.isAnonymous = false ∧
    (registerSuccessState s u tok).auth.anonymousMessageCount = 0 ∧
    (registerSuccessState s u tok).auth.user = u ∧
    (registerSuccessState s u tok).storage.messageCount = none ∧
    (registerSuccessState s u tok).storage.sessionId = none ∧
    incrementMessageCount (registerSuccessState s u tok) = registerSuccessState s u tok ∧
    canSendMessage (registerSuccessState s u tok).auth = true :=
  ⟨rfl, rfl, rfl, rfl, rfl, rfl, rfl, rfl⟩

/-! ## Claim C7 -/

/-- Claim C7: `register` calls the promote-anonymous endpoint, passing the
stored anonymous session id, exactly when a (nonempty, hence truthy)
anonymous session id is stored and `anonymousMessageCount > 0`; in every
other case it calls the plain register endpoint. -/
theorem register_promotes_exactly_when (s : ClientState) (email password : List Char) :
    (∀ sid, registerApiCall s email password =
        RegisterCall.promoteAnonymous email password sid ↔
      (getAnonymousSessionId s = some sid ∧ sid ≠ [] ∧
        0 < s.auth.anonymousMessageCount)) ∧
    ((¬ ∃ sid, getAnonymousSessionId s = some sid ∧ sid ≠ [] ∧
        0 < s.auth.anonymousMessageCount) →
      registerApiCall s email password = RegisterCall.plainRegister email password) := by
  cases hsid : s.storage.sessionId with
  | none =>
    refine ⟨fun sid => ⟨fun h => ?_, fun h => ?_⟩, fun _ => ?_⟩
    · simp [registerApiCall, getAnonymousSessionId, hsid] at h
    · rw [getAnonymousSessionId, hsid] at h
      exact Option.noConfusion h.1
    · simp [registerApiCall, getAnonymousSessionId, hsid]
  | some t =>
    have hget : getAnonymousSessionId s = some t := by rw [getAnonymousSessionId, hsid]
    by_cases hcond : (!t.isEmpty && decide (0 < s.auth.anonymousMessageCount)) = true
    · rw [Bool.and_eq_true] at hcond
      obtain ⟨h1, h2⟩ := hcond
      have hcond : (!t.isEmpty && decide (0 < s.auth.anonymousMessageCount)) = true := by
        rw [Bool.and_eq_true]; exact ⟨h1, h2⟩
      have ht : t ≠ [] := by
        intro h0; subst h0; simp at h1
      have hcnt : 0 < s.auth.anonymousMessageCount := of_decide_eq_true h2
      have hcall : registerApiCall s email password =
          RegisterCall.promoteAnonymous email password t := by
        simp only [registerApiCall, getAnonymousSessionId, hsid]
        rw [if_pos hcond]
      refine ⟨fun sid => ⟨fun h => ?_, fun h => ?_⟩, fun hno => absurd ⟨t, hget, ht, hcnt⟩ hno⟩
      · rw [hcall] at h
        injection h with _ _ h3
        exact ⟨h3 ▸ hget, h3 ▸ ht, hcnt⟩
      · obtain ⟨hsome, -, -⟩ := h
        rw [hget] at hsome
        injection hsome with h4
        rw [hcall, h4]
    · have hcall : registerApiCall s email password =
          RegisterCall.plainRegister email password := by
        simp only [registerApiCall, getAnonymousSessionId, hsid]
        rw [if_neg hcond]
      refine ⟨fun sid => ⟨fun h => ?_, fun h => ?_⟩, fun _ => hcall⟩
      · rw [hcall] at h
        exact RegisterCall.noConfusion h
      · obtain ⟨hsome, hne, hcnt⟩ := h
        rw [hget] at hsome
        injection hsome with h4
        exfalso
        apply hcond
        rw [Bool.and_eq_true]
        subst h4
        exact ⟨by simp [List.isEmpty_iff, hne], decide_eq_true hcnt⟩

theorem register_promotes_exactly_when_witness :
    registerApiCall
        ⟨⟨none, false, true, 2, false⟩, ⟨none, some (chars "2"), some (chars "abc")⟩⟩
        (chars "e") (chars "p") =
      RegisterCall.promoteAnonymous (chars "e") (chars "p") (chars "abc") ∧
    registerApiCall
        ⟨⟨none, false, true, 0, false⟩, ⟨none, none, some (chars "abc")⟩⟩
        (chars "e") (chars "p") =
      RegisterCall.plainRegister (chars "e") (chars "p") :=
  ⟨((register_promotes_exactly_when _ _ _).1 _).mpr ⟨rfl, by decide, by decide⟩,
   (register_promotes_exactly_when _ _ _).2
     (by rintro ⟨sid, -, -, hcnt⟩; exact absurd hcnt (by decide))⟩

/-! ## Claim C5 -/

theorem streamLoop_eq (evs : List SMEvent) : ∀ acc : RunAcc,
    streamLoop acc evs = (evs.foldl consumeEvent acc, evs.map ChatAction.consume) := by
  induction evs with
  | nil => intro acc; rfl
  | cons e rest ih => intro acc; simp [streamLoop, ih]

/-- Claim C5 (counterexample): the send flow does not wait for a terminal
stream event before installing an assistant message.  A response body that
delivers a single `{type: content}` frame and then simply ends — no
`[DONE]` marker (the termination flag of `streamChunks` is `false`) and no
`{type: metadata}` sentinel — makes the generator return normally, the
`for await` loop of `mutationFn` end without throwing (`ok = true`), and
`onSuccess` append the partially accumulated `fullResponse` as an ordinary,
unflagged assistant message. -/
theorem useChat_partial_installed_counterexample :
    streamChunks [chars "data: \x7b\"type\": \"content\", \"data\": \"partial\"\x7d\n"] =
      ([SMEvent.content (.str (chars "partial"))], false) ∧
    sendTrace (chars "q") (chars "t0") (chars "t1")
        [SMEvent.content (.str (chars "partial"))] true =
      [ChatAction.appendUser (chars "q") (chars "t0"),
       ChatAction.consume (SMEvent.content (.str (chars "partial"))),
       ChatAction.appendAssistant (chars "partial") (chars "t1") none] :=
  ⟨rfl, rfl⟩

/-- Claim C5 (amended): in the send-message flow of `useChat`, the user
message is appended first, before any stream event is consumed; the
assistant message is appended as the single final action, only after every
consumed event — but the success condition is merely that the stream
iteration finished without throwing (`ok`), not that a terminal stream
event was received.  After normal generator completion the content is the
full accumulated response (with a fixed fallback when the accumulation is
empty), so a body that ends cleanly without a terminal event still installs
the accumulation as a normal message; after a stream error it is the fixed
apology text, which never contains the partial `fullResponse`. -/
theorem useChat_send_order (message tsU tsA : List Char) (evs : List SMEvent) (ok : Bool) :
    sendTrace message tsU tsA evs ok =
      ChatAction.appendUser message tsU ::
        (evs.map ChatAction.consume ++
          [if ok then
             ChatAction.appendAssistant
               (if (evs.foldl consumeEvent initAcc).fullResponse = [] then apologyEmptyText
                else (evs.foldl consumeEvent initAcc).fullResponse) tsA
               (if hasSources (resultSources (evs.foldl consumeEvent initAcc).meta) then
                  some (resultSources (evs.foldl consumeEvent initAcc).meta)
                else none)
           else ChatAction.appendAssistant apologyErrorText tsA none]) := by
  rw [sendTrace, streamLoop_eq]
  rfl

/-! ## Claim C9 -/

theorem find?_mapUpdate (m : List (Nat × JSVal)) (k : Nat) (v : JSVal) :
    ((m.map fun p => if p.1 = k then (k, v) else p).find? fun p => p.1 == k) =
      if m.any (fun p => p.1 == k) then some (k, v) else none := by
  induction m with
  | nil => rfl
  | cons p m ih =>
    by_cases hp : p.1 = k
    · simp [List.find?, hp]
    · have hb : (p.1 == k) = false := by simp [hp]
      simp only [List.map_cons, if_neg hp, List.find?_cons, hb, List.any_cons, Bool.false_or]
      exact ih

theorem find?_mapUpdate_ne (m : List (Nat × JSVal)) (k j : Nat) (v : JSVal) (hj : j ≠ k) :
    ((m.map fun p => if p.1 = k then (k, v) else p).find? fun p => p.1 == j) =
      (m.find? fun p => p.1 == j) := by
  induction m with
  | nil => rfl
  | cons p m ih =>
    by_cases hpk : p.1 = k
    · have hkj : ((k : Nat) == j) = false := by
        simp [Ne.symm hj]
      simp [List.find?, hpk, hkj, ih]
    · by_cases hpj : (p.1 == j) = true
      · simp [List.find?, hpk, hpj]
      · simp [List.find?, hpk, hpj, ih]

theorem sourcesAt_setSourcesAt_self (m : List (Nat × JSVal)) (k : Nat) (v : JSVal) :
    sourcesAt (setSourcesAt m k v) k = some v := by
  unfold setSourcesAt
  by_cases h : m.any (fun p => p.1 == k) = true
  · rw [if_pos h, sourcesAt, find?_mapUpdate, if_pos h]
    rfl
  · rw [if_neg h, sourcesAt, List.find?_append]
    have hnone : (m.find? fun p => p.1 == k) = none := by
      rw [List.find?_eq_none]
      intro p hp hbeq
      exact h (List.any_eq_true.mpr ⟨p, hp, hbeq⟩)
    rw [hnone]
    simp [List.find?]

theorem sourcesAt_setSourcesAt_ne (m : List (Nat × JSVal)) (k j : Nat) (v : JSVal)
    (hj : j ≠ k) :
    sourcesAt (setSourcesAt m k v) j = sourcesAt m j := by
  unfold setSourcesAt
  by_cases h : m.any (fun p => p.1 == k) = true
  · rw [if_pos h, sourcesAt, find?_mapUpdate_ne m k j v hj, sourcesAt]
  · rw [if_neg h, sourcesAt, List.find?_append, sourcesAt]
    have hkj : ((k : Nat) == j) = false := by simp [Ne.symm hj]
    cases hf : m.find? fun p => p.1 == j <;> simp [List.find?, hkj]

theorem applyTrace_consumes (s : ChatState) (evs : List SMEvent) :
    applyTrace s (evs.map ChatAction.consume) = s := by
  induction evs generalizing s with
  | nil => rfl
  | cons e rest ih => exact ih s

theorem sourcesOnAssistantOnly_appendUser (s : ChatState) (c ts : List Char)
    (hinv : sourcesOnAssistantOnly s) :
    sourcesOnAssistantOnly (applyAction s (.appendUser c ts)) := by
  intro k v hk
  obtain ⟨m, hm, hrole⟩ := hinv k v hk
  refine ⟨m, ?_, hrole⟩
  have hlt : k < s.messages.length := (List.get?_eq_some.mp hm).1
  simpa [applyAction] using (List.get?_append hlt).trans hm

theorem sourcesOnAssistantOnly_appendAssistant (s : ChatState) (c ts : List Char)
    (recorded : Option JSVal) (hinv : sourcesOnAssistantOnly s) :
    sourcesOnAssistantOnly (applyAction s (.appendAssistant c ts recorded)) := by
  intro k v hk
  cases recorded with
  | none =>
    obtain ⟨m, hm, hrole⟩ := hinv k v hk
    refine ⟨m, ?_, hrole⟩
    have hlt : k < s.messages.length := (List.get?_eq_some.mp hm).1
    simpa [applyAction] using
      (@List.get?_append FMessage s.messages [⟨Role.assistant, c, ts, none⟩] k hlt).trans hm
  | some w =>
    have hkey : (s.messages ++ [(⟨Role.assistant, c, ts, none⟩ : FMessage)]).length - 1 =
        s.messages.length := by simp
    by_cases hk2 : k = s.messages.length
    · subst hk2
      refine ⟨⟨Role.assistant, c, ts, none⟩, ?_, rfl⟩
      exact List.get?_concat_length s.messages _
    · have hk3 : sourcesAt s.sources k = some v := by
        have := hk
        simp only [applyAction, hkey] at this
        rwa [sourcesAt_setSourcesAt_ne _ _ _ _ hk2] at this
      obtain ⟨m, hm, hrole⟩ := hinv k v hk3
      refine ⟨m, ?_, hrole⟩
      have hlt : k < s.messages.length := (List.get?_eq_some.mp hm).1
      simpa [applyAction] using
        (@List.get?_append FMessage s.messages [⟨Role.assistant, c, ts, none⟩] k hlt).trans hm

theorem reconstructAux_lookup_lt (h : List FMessage) :
    ∀ (i j : Nat), j < i → sourcesAt (reconstructSourcesAux i h) j = none := by
  induction h with
  | nil => intro i j _; rfl
  | cons m h ih =>
    intro i j hj
    rw [reconstructSourcesAux]
    by_cases hrec : recordableSources m = true
    · rw [if_pos hrec, sourcesAt, List.find?]
      have : ((i : Nat) == j) = false := by simp; omega
      rw [this]
      exact ih (i + 1) j (by omega)
    · rw [if_neg hrec]
      exact ih (i + 1) j (by omega)

theorem reconstructAux_lookup (h : List FMessage) :
    ∀ (i j : Nat),
      sourcesAt (reconstructSourcesAux i h) (i + j) =
        (match h.get? j with
         | some m => if recordableSources m then some ((m.sources).getD .null) else none
         | none => none) := by
  induction h with
  | nil => intro i j; cases j <;> rfl
  | cons m h ih =>
    intro i j
    rw [reconstructSourcesAux]
    cases j with
    | zero =>
      by_cases hrec : recordableSources m = true
      · rw [if_pos hrec, sourcesAt, List.find?]
        simp [hrec]
      · rw [if_neg hrec]
        have h0 : sourcesAt (reconstructSourcesAux (i + 1) h) i = none :=
          reconstructAux_lookup_lt h (i + 1) i (by omega)
        simp [h0, hrec]
    | succ j =>
      have harith : i + (j + 1) = (i + 1) + j := by omega
      by_cases hrec : recordableSources m = true
      · rw [if_pos hrec, sourcesAt, List.find?]
        have : ((i : Nat) == i + (j + 1)) = false := by simp
        rw [this, harith]
        exact ih (i + 1) j
      · rw [if_neg hrec, harith]
        exact ih (i + 1) j

/-- Claim C9 (counterexample): `setMessagesFromHistory` does not check the
message role, so a history in which a *user* message carries a full-object
source list gets sources recorded at that user message's index, violating
the claimed invariant. -/
theorem useChat_history_sources_user_counterexample :
    sourcesAt (setMessagesFromHistory [⟨Role.user, chars "hi", chars "t0",
          some (.arr [.obj [(chars "id", .str (chars "doc1"))]])⟩]).sources 0 =
        some (.arr [.obj [(chars "id", .str (chars "doc1"))]]) ∧
    ((setMessagesFromHistory [⟨Role.user, chars "hi", chars "t0",
          some (.arr [.obj [(chars "id", .str (chars "doc1"))]])⟩]).messages.get? 0).map
        FMessage.role = some Role.user ∧
    ¬ sourcesOnAssistantOnly (setMessagesFromHistory [⟨Role.user, chars "hi", chars "t0",
          some (.arr [.obj [(chars "id", .str (chars "doc1"))]])⟩]) := by
  refine ⟨rfl, rfl, fun hinv => ?_⟩
  obtain ⟨m, hm, hrole⟩ := hinv 0 (.arr [.obj [(chars "id", .str (chars "doc1"))]]) rfl
  rw [show (setMessagesFromHistory [⟨Role.user, chars "hi", chars "t0",
      some (.arr [.obj [(chars "id", .str (chars "doc1"))]])⟩]).messages.get? 0 =
      some ⟨Role.user, chars "hi", chars "t0",
        some (.arr [.obj [(chars "id", .str (chars "doc1"))]])⟩ from rfl] at hm
  injection hm with hm2
  rw [← hm2] at hrole
  exact Role.noConfusion hrole

/-- Claim C9 (amended): citation sources are attached only to assistant
messages in the following sense.  (1) `ChatMessage` renders a sources panel
only when the message role is not `user`.  (2) The streaming send path of
`useChat` preserves the invariant that every index of the sources map holds
an assistant message — `onSuccess` records sources exactly at the index of
the just-appended assistant message.  (3) `setMessagesFromHistory` records
sources only at indices of assistant messages *provided* only assistant
messages in the history carry recordable (nonempty, full-object) source
lists, and (4) it records nothing at the index of any message without a
recordable source list — in particular legacy string-id lists are always
skipped. -/
theorem useChat_sources_only_on_assistant :
    (∀ (m : FMessage) (srcs : Option JSVal), m.role = Role.user →
        chatMessageShowsSourcesPanel m srcs = false) ∧
    (∀ (s : ChatState) (message tsU tsA : List Char) (evs : List SMEvent) (ok : Bool),
        sourcesOnAssistantOnly s →
        sourcesOnAssistantOnly (applyTrace s (sendTrace message tsU tsA evs ok))) ∧
    (∀ h : List FMessage,
        (∀ m ∈ h, recordableSources m = true → m.role = Role.assistant) →
        sourcesOnAssistantOnly (setMessagesFromHistory h)) ∧
    (∀ (h : List FMessage) (i : Nat) (m : FMessage),
        h.get? i = some m → recordableSources m = false →
        sourcesAt (setMessagesFromHistory h).sources i = none) := by
  refine ⟨?_, ?_, ?_, ?_⟩
  · intro m srcs hrole
    simp [chatMessageShowsSourcesPanel, hrole]
  · intro s message tsU tsA evs ok hinv
    rw [sendTrace, streamLoop_eq]
    simp only [applyTrace, List.foldl_cons, List.foldl_append]
    rw [show List.foldl applyAction (applyAction s (.appendUser message tsU))
          (evs.map ChatAction.consume) =
        applyTrace (applyAction s (.appendUser message tsU)) (evs.map ChatAction.consume)
      from rfl]
    rw [applyTrace_consumes]
    have h1 := sourcesOnAssistantOnly_appendUser s message tsU hinv
    cases ok with
    | true =>
      simpa using sourcesOnAssistantOnly_appendAssistant _ _ _ _ h1
    | false =>
      simpa using sourcesOnAssistantOnly_appendAssistant _ _ _ _ h1
  · intro h hha k v hk
    rw [setMessagesFromHistory] at hk
    have hk0 : sourcesAt (reconstructSourcesAux 0 h) (0 + k) = some v := by simpa using hk
    rw [reconstructAux_lookup h 0 k] at hk0
    cases hm : h.get? k with
    | none => rw [hm] at hk0; exact Option.noConfusion hk0
    | some m =>
      rw [hm] at hk0
      by_cases hrec : recordableSources m = true
      · exact ⟨m, hm, hha m (List.get?_mem hm) hrec⟩
      · simp [hrec] at hk0
  · intro h i m hm hrec
    have := reconstructAux_lookup h 0 i
    rw [hm] at this
    simpa [setMessagesFromHistory, hrec] using this

theorem useChat_sources_only_on_assistant_witness :
    sourcesOnAssistantOnly (setMessagesFromHistory
      [⟨Role.user, chars "q", chars "t0", none⟩,
       ⟨Role.assistant, chars "a", chars "t1",
          some (.arr [.obj [(chars "id", .str (chars "doc1"))]])⟩]) ∧
    sourcesAt (setMessagesFromHistory
      [⟨Role.user, chars "q", chars "t0", some (.arr [.str (chars "legacy-id")])⟩]).sources 0 =
      none :=
  ⟨useChat_sources_only_on_assistant.2.2.1 _ (by
      intro m hm hrec
      rcases List.mem_cons.mp hm with rfl | hm2
      · exact absurd hrec (by decide)
      · rcases List.mem_cons.mp hm2 with rfl | hm3
        · rfl
        · exact absurd hm3 (List.not_mem_nil m)),
   useChat_sources_only_on_assistant.2.2.2 _ 0 _ rfl rfl⟩

/-! ## Claim C10 -/

/-- Claim C10: `deleteSession` is atomic with respect to the cached session
list: `onMutate` snapshots the cached list and optimistically removes the
session; if the delete request fails the cache is restored exactly to the
snapshot and the whole state is unchanged; on success the deleted session is
absent from the cache and, if it was the current session, `currentSessionId`
is cleared (and is untouched otherwise). -/
theorem deleteSession_optimistic (s : SessionsState) (l : List ChatSession)
    (sid : List Char) (hcache : s.cache = some l) :
    (deleteOnMutate s sid).2 = some l ∧
    (deleteOnMutate s sid).1.cache =
      some (l.filter fun c => decide (c.session_id ≠ sid)) ∧
    deleteSessionRun s sid false = s ∧
    (deleteSessionRun s sid true).cache =
      some (l.filter fun c => decide (c.session_id ≠ sid)) ∧
    (∀ c ∈ l.filter fun c => decide (c.session_id ≠ sid), c.session_id ≠ sid) ∧
    (deleteSessionRun s sid true).currentSessionId =
      (if s.currentSessionId = some sid then none else s.currentSessionId) := by
  obtain ⟨cache, cur⟩ := s
  subst hcache
  refine ⟨rfl, rfl, rfl, ?_, ?_, ?_⟩
  · rw [deleteSessionRun]
    by_cases hcur : cur = some sid <;> simp [deleteOnMutate, hcur]
  · intro c hc
    exact of_decide_eq_true (List.mem_filter.mp hc).2
  · rw [deleteSessionRun]
    by_cases hcur : cur = some sid <;> simp [deleteOnMutate, hcur]

theorem deleteSession_optimistic_witness :
    deleteSessionRun
        ⟨some [⟨chars "a", none, none, chars "t0", chars "t1", 2⟩], some (chars "a")⟩
        (chars "a") false =
      ⟨some [⟨chars "a", none, none, chars "t0", chars "t1", 2⟩], some (chars "a")⟩ ∧
    (deleteSessionRun
        ⟨some [⟨chars "a", none, none, chars "t0", chars "t1", 2⟩], some (chars "a")⟩
        (chars "a") true).cache = some [] ∧
    (deleteSessionRun
        ⟨some [⟨chars "a", none, none, chars "t0", chars "t1", 2⟩], some (chars "a")⟩
        (chars "a") true).currentSessionId = none := by
  have h := deleteSession_optimistic
    ⟨some [⟨chars "a", none, none, chars "t0", chars "t1", 2⟩], some (chars "a")⟩
    [⟨chars "a", none, none, chars "t0", chars "t1", 2⟩] (chars "a") rfl
  exact ⟨h.2.2.1, h.2.2.2.1.trans (by decide), h.2.2.2.2.2.trans (by decide)⟩

end RagChat
